import Mathlib

/-!
# libappimage: Format-1 traversal, C interface and desktop integration

A shallow embedding of

* `src/libappimage/core/impl/traversal_type_1.cpp` (the sequential, ISO-9660 style traversal),
* `src/libappimage/libappimage.cpp` (the C interface functions),
* `src/libappimage_desktop_integration/Integrator.cpp` (the desktop file path),

followed by the properties established about them.

Conventions of the embedding.

* A C string (`const char*`, and the contents of a `std::string` built from one) is the list of
  its characters before the terminating NUL; a null pointer is `none`.
* A call that may throw returns a `Result`; a stateful member function returns its result
  together with the state it leaves behind, also when it throws.
* The libarchive reader behind a Format-1 package is the list of answers that
  `archive_read_next_header` still has to give; once the list is used up it answers
  `ARCHIVE_EOF`.
-/

namespace libappimage

/-! ## C library -/

/-- The sign of `strcmp(a, b)`: `0` exactly when both strings have the same characters. -/
def strcmp : List Char → List Char → Int
  | [], [] => 0
  | [], _ :: _ => -1
  | _ :: _, [] => 1
  | a :: as, b :: bs =>
    if a = b then strcmp as bs else if a.toNat < b.toNat then -1 else 1

/-- The sign of `strncmp(a, b, n)`: compares at most `n` characters and stops at the end of a
string. -/
def strncmp : List Char → List Char → Nat → Int
  | _, _, 0 => 0
  | [], [], _ + 1 => 0
  | [], _ :: _, _ + 1 => -1
  | _ :: _, [], _ + 1 => 1
  | a :: as, b :: bs, n + 1 =>
    if a = b then strncmp as bs n else if a.toNat < b.toNat then -1 else 1

/-- Status `ARCHIVE_OK` of libarchive. -/
def ARCHIVE_OK : Int := 0

/-- Status `ARCHIVE_EOF` of libarchive. -/
def ARCHIVE_EOF : Int := 1

/-- Status `ARCHIVE_FATAL` of libarchive. -/
def ARCHIVE_FATAL : Int := -30

/-! ## Exceptions and results -/

/-- The exception classes thrown by the embedded code. -/
inductive ErrorKind where
  | AppImageError
  | AppImageReadError
  | other
  deriving DecidableEq, Repr

/-- A thrown exception: its class and its `what()` text. -/
structure Exception where
  kind : ErrorKind
  what : List Char
  deriving DecidableEq, Repr

/-- How a call ends: it returns a value, it throws, or it runs into undefined behaviour
(a null pointer handed to `strcmp`, a null `shared_ptr` dereferenced). -/
inductive Result (α : Type) where
  | returned (value : α)
  | raised (e : Exception)
  | undefined
  deriving DecidableEq, Repr

/-! ## Format-1 traversal (`traversal_type_1.cpp`) -/

/-- One answer of `archive_read_next_header(a, &entry)`: the status returned, the path name of
the entry it leaves in `entry` (`none` when `archive_entry_pathname` gives a null pointer) and
the text `archive_error_string(a)` gives afterwards. -/
structure Header where
  status : Int
  pathname : Option (List Char)
  error_string : List Char
  deriving DecidableEq, Repr

/-- The answer that delivers a record named `name` with status `ARCHIVE_OK`. -/
def Header.ok (name : List Char) : Header :=
  { status := ARCHIVE_OK, pathname := some name, error_string := [] }

/-- The fields of `traversal_type_1`. `a` is the archive reader (the answers still to come),
`entry` the path name of the record under `entry` (`none` for a null path name; the pointer is
not initialised by the constructor and is modelled as having no path name until the first
`next()`), `appImageIStream` whether `read()` has installed a stream. -/
structure traversal_type_1 where
  path : List Char
  a : List Header
  entry : Option (List Char)
  completed : Bool
  appImageIStream : Bool
  deriving DecidableEq, Repr

namespace traversal_type_1

/-- The constructor: `archive_read_open_filename` answers `openStatus`; anything other than
`ARCHIVE_OK` throws `AppImageReadError(archive_error_string(a))`, otherwise `completed` is set
to `false`. -/
def create (path : List Char) (openStatus : Int) (error_string : List Char)
    (records : List Header) : Result traversal_type_1 :=
  if openStatus ≠ ARCHIVE_OK then
    Result.raised ⟨ErrorKind.AppImageReadError, error_string⟩
  else
    Result.returned
      { path := path, a := records, entry := none, completed := false, appImageIStream := false }

/-- The member `isCompleted()`. -/
def isCompleted (t : traversal_type_1) : Bool :=
  t.completed

/-- The member `getEntryName()`. -/
def getEntryName (t : traversal_type_1) : List Char :=
  if t.completed then []
  else
    match t.entry with
    | none => []
    | some entryName =>
      if strncmp ['.', '/'] entryName 2 = 0 then entryName.drop 2 else entryName

/-- The body of `next()` with the reader's pending answers as an explicit argument (they are
what the recursion of `next()` consumes); `t` holds the other fields. -/
def nextFrom : List Header → traversal_type_1 → Result Unit × traversal_type_1
  | [], t =>
    -- r == ARCHIVE_EOF
    (Result.returned (), { t with a := [], entry := none, completed := true })
  | h :: rest, t =>
    let t1 : traversal_type_1 := { t with a := rest, entry := h.pathname }
    if h.status = ARCHIVE_EOF then
      (Result.returned (), { t1 with completed := true })
    else if h.status ≠ ARCHIVE_OK then
      (Result.raised ⟨ErrorKind.AppImageReadError, h.error_string⟩, t1)
    else
      -- Skip the "." entry
      match h.pathname with
      | none => (Result.undefined, t1)
      | some entryName =>
        if strcmp entryName ['.'] = 0 then nextFrom rest t1 else (Result.returned (), t1)

/-- The member `next()`. -/
def next (t : traversal_type_1) : Result Unit × traversal_type_1 :=
  nextFrom t.a t

/-- What the file system and the reader answer during one `extract` call:
whether `utils::filesystem::createDirectories` throws, the return value of `open(2)`
(a descriptor, or `-1`), and the return value of `archive_read_data_into_fd`. -/
structure ExtractEnv where
  createDirectoriesError : Option Exception
  openResult : Int
  copyStatus : Int
  deriving DecidableEq, Repr

/-- The member `extract(target)`. -/
def extract (env : ExtractEnv) (target : List Char) (t : traversal_type_1) :
    Result Unit × traversal_type_1 :=
  match env.createDirectoriesError with
  | some e => (Result.raised e, t)
  | none =>
    let f := env.openResult
    if f = -1 then
      (Result.raised ⟨ErrorKind.AppImageError, "Unable to open file: ".toList ++ target⟩, t)
    else
      -- archive_read_data_into_fd(a, f): the status it returns is not looked at
      let _ := env.copyStatus
      (Result.returned (), t)

/-- The member `read()`: a new stream over the archive handle is installed and returned. -/
def read (t : traversal_type_1) : Result Unit × traversal_type_1 :=
  (Result.returned (), { t with appImageIStream := true })

/-- The operations a client may call on a traversal session. -/
inductive Op where
  | next
  | getEntryName
  | extract (env : ExtractEnv) (target : List Char)
  | read
  deriving DecidableEq, Repr

/-- The state a traversal session is in after one operation. -/
def after (op : Op) (t : traversal_type_1) : traversal_type_1 :=
  match op with
  | Op.next => (next t).2
  | Op.getEntryName => t
  | Op.extract env target => (extract env target t).2
  | Op.read => (read t).2

/-- The session over a package whose reader opens and then delivers `names` as records,
each with status `ARCHIVE_OK`. -/
def ofRecords (path : List Char) (names : List (List Char)) : traversal_type_1 :=
  { path := path
    a := names.map Header.ok
    entry := none
    completed := false
    appImageIStream := false }

/-- Modelled from the spec: the entry iterator that drives a traversal (section 4.5:
incrementing calls `next()`, the end is reached exactly when `isCompleted()` is true,
dereferencing gives `getEntryName()`) is not among the sources. This is its loop over a fresh
session: call `next()`, stop when `isCompleted()`, otherwise observe `getEntryName()` and
repeat, for at most `fuel` calls of `next()`. The result is the list of names observed, or
`none` when `next()` does not return normally or the fuel runs out first. -/
def names : Nat → traversal_type_1 → Option (List (List Char))
  | 0, _ => none
  | fuel + 1, t =>
    match next t with
    | (Result.returned _, t1) =>
      if isCompleted t1 then some []
      else (names fuel t1).map (fun rest => getEntryName t1 :: rest)
    | _ => none

end traversal_type_1

/-! ## Strings (`std::string` and the boost string algorithms) -/

/-- The classification `std::isspace` of the "C" locale, which `boost::trim` uses. -/
def isspace (c : Char) : Bool :=
  c = ' ' || c = '\t' || c = '\n' || c = Char.ofNat 11 || c = Char.ofNat 12 || c = '\r'

/-- The algorithm `boost::trim_left`. -/
def trim_left (s : List Char) : List Char :=
  s.dropWhile isspace

/-- The algorithm `boost::trim_right`. -/
def trim_right (s : List Char) : List Char :=
  (s.reverse.dropWhile isspace).reverse

/-- The algorithm `boost::trim`: the right end is trimmed first, then the left end. -/
def trim (s : List Char) : List Char :=
  trim_left (trim_right s)

/-- The algorithm `boost::to_lower` (`std::tolower` on every character). -/
def to_lower (s : List Char) : List Char :=
  s.map Char.toLower

/-- The search of `std::string::find`, started at position `pos` of the original string. -/
def findFrom (pat : List Char) : List Char → Nat → Option Nat
  | [], pos => if pat = [] then some pos else none
  | c :: cs, pos => if pat.isPrefixOf (c :: cs) then some pos else findFrom pat cs (pos + 1)

/-- The member `std::string::find(str)`; `none` is `std::string::npos`. -/
def find (s pat : List Char) : Option Nat :=
  findFrom pat s 0

/-- The member `std::string::find(ch)`; `none` is `std::string::npos`. -/
def find_char (s : List Char) (c : Char) : Option Nat :=
  findFrom [c] s 0

/-- The scan of `boost::replace_all`: occurrences of `search` are found from left to right
without overlap; `skip` is the number of characters of the occurrence just replaced that are
still to be passed over. -/
def replaceFrom (search format : List Char) : Nat → List Char → List Char
  | _, [] => []
  | skip + 1, _ :: cs => replaceFrom search format skip cs
  | 0, c :: cs =>
    if search ≠ [] ∧ search.isPrefixOf (c :: cs) then
      format ++ replaceFrom search format (search.length - 1) cs
    else c :: replaceFrom search format 0 cs

/-- The algorithm `boost::replace_all(input, search, format)`. -/
def replace_all (input search format : List Char) : List Char :=
  replaceFrom search format 0 input

/-! ## Iterating the files of a package -/

/-- Modelled from the spec: the package facade `AppImage` and its entry iterator (`files()`,
`*itr`, `++itr`, `itr != itr.end()`, `itr.read()`; sections 4.4 and 4.5) are not among the
sources. What a loop `for (auto itr = appImage.files(); itr != itr.end(); ++itr)` over a
package meets, from opening it onwards, is one of: the iterator equals `end()` (`completed`);
opening the package or advancing the iterator throws (`raised`); or the iterator stands on an
entry whose name is `*itr`, whose `itr.read()` gives the content stream or throws, and after
which `++itr` leads to `rest`. -/
inductive FilesRun where
  | completed
  | raised (e : Exception)
  | entry (name : List Char) (content : Except Exception (List Char)) (rest : FilesRun)

/-- The run that meets the entries `pre` (name and content of each) one after the other and
then goes on as `tail`. -/
def FilesRun.prepend (pre : List (List Char × Except Exception (List Char)))
    (tail : FilesRun) : FilesRun :=
  pre.foldr (fun p run => FilesRun.entry p.1 p.2 run) tail

/-! ## C interface (`libappimage.cpp`) -/

/-- The loop of `appimage_list_files` over `files`, the vector collected so far; `none` when an
exception leaves the `try` block. -/
def listFilesLoop : FilesRun → List (List Char) → Option (List (List Char))
  | FilesRun.completed, files => some files
  | FilesRun.raised _, _ => none
  | FilesRun.entry name _ rest, files =>
    if ¬ name.isEmpty then listFilesLoop rest (files ++ [name]) else listFilesLoop rest files

/-- The function `appimage_list_files`. The `char**` returned is `none` for a null pointer and
otherwise the array of its slots, each a string or the null pointer. -/
def appimage_list_files (run : FilesRun) : Option (List (Option (List Char))) :=
  match listFilesLoop run [] with
  | some files =>
    -- result[i] = strdup(files[i].c_str()); result[files.size()] = nullptr;
    let result := some (files.map some ++ [none])
    result
  | none =>
    -- Create empty string list
    let result := some [none]
    result

/-- The loop of `appimage_read_file_into_buffer_following_symlinks`: `none` when an exception
leaves the `try` block, otherwise `data` when `found` and `none` when not. -/
def readFileLoop (file_path : List Char) : FilesRun → Option (Option (List Char))
  | FilesRun.completed => some none
  | FilesRun.raised _ => none
  | FilesRun.entry name content rest =>
    if name = file_path then
      match content with
      | Except.ok data => some (some data)
      | Except.error _ => none
    else readFileLoop file_path rest

/-- The out-parameters `*buffer` (`none` is the null pointer) and `*buf_size`. -/
structure BufferOut where
  buffer : Option (List Char)
  buf_size : Nat
  deriving DecidableEq, Repr

/-- The function `appimage_read_file_into_buffer_following_symlinks`; `out` holds what the
out-parameters contain when it is called. -/
def appimage_read_file_into_buffer_following_symlinks (run : FilesRun) (file_path : List Char)
    (out : BufferOut) : Bool × BufferOut :=
  let out := { out with buffer := none }
  let out := { out with buf_size := 0 }
  match readFileLoop file_path run with
  | some (some data) =>
    let out := { out with buffer := some data }
    let out := { out with buf_size := data.length }
    (true, out)
  | some none => (false, out)
  | none => (false, out)

/-- The class `XdgUtils::DesktopEntry::DesktopEntry` as far as it is used: the values stored
under the paths "group/key". A default-constructed entry is empty. -/
abbrev DesktopEntry := List (List Char × List Char)

/-- The member `DesktopEntry::get(path, fallback)`. -/
def DesktopEntry.get (entry : DesktopEntry) (path fallback : List Char) : List Char :=
  match entry.lookup path with
  | some value => value
  | none => fallback

/-- The loop of `appimage_shall_not_be_integrated`; `parse` is the stream extraction
`itr.read() >> entry` of XdgUtils. `none` when an exception leaves the `try` block. -/
def loadDesktopEntryLoop (parse : List Char → Except Exception DesktopEntry) :
    FilesRun → DesktopEntry → Option DesktopEntry
  | FilesRun.completed, entry => some entry
  | FilesRun.raised _, _ => none
  | FilesRun.entry entryPath content rest, entry =>
    if (find entryPath ".desktop".toList ≠ none) ∧ (find_char entryPath '/' = none) then
      match content with
      | Except.error _ => none
      | Except.ok bytes =>
        match parse bytes with
        | Except.error _ => none
        | Except.ok loaded => some loaded
    else loadDesktopEntryLoop parse rest entry

/-- The function `appimage_shall_not_be_integrated`. -/
def appimage_shall_not_be_integrated (parse : List Char → Except Exception DesktopEntry)
    (run : FilesRun) : Int :=
  match loadDesktopEntryLoop parse run [] with
  | some entry =>
    let integrateEntryValue :=
      DesktopEntry.get entry "Desktop Entry/X-AppImage-Integrate".toList "true".toList
    let integrateEntryValue := to_lower integrateEntryValue
    let integrateEntryValue := trim integrateEntryValue
    if integrateEntryValue = "false".toList then 1 else 0
  | none => -1

/-! ## Desktop integration (`Integrator.cpp`) -/

/-- The class `linuxdeploy::desktopfile::DesktopFile` as far as it is used: the values stored
under a group (section) name and a key. -/
abbrev DesktopFile := List ((List Char × List Char) × List Char)

/-- The member `DesktopFile::getEntry(group, key, entry)`: `some` of the entry's value when
it returns `true`. -/
def DesktopFile.getEntry (file : DesktopFile) (group key : List Char) : Option (List Char) :=
  file.lookup (group, key)

/-- The functions `utils::HashLib::md5` and `utils::HashLib::toHex`, whose source is not at
hand: they are parameters of the development. -/
structure HashLib where
  md5 : List Char → List Nat
  toHex : List Nat → List Char

/-- The struct `desktop_integration_resources`; `none` is the null `shared_ptr`. -/
structure desktop_integration_resources where
  desktopFile : Option DesktopFile
  deriving DecidableEq, Repr

/-- The private state of an `Integrator`: `userDataDir`, and of `appImage` its path and what
iterating its files meets. -/
structure Integrator where
  userDataDir : List Char
  appImagePath : List Char
  files : FilesRun

namespace Integrator

/-- The helper `priv::isMainDesktopFile`. -/
def isMainDesktopFile (fileName : List Char) : Bool :=
  decide (find fileName ".desktop".toList ≠ none) && decide (find_char fileName '/' = none)

/-- The loop of `priv::getDesktopIntegrationResources`; `parse` is the constructor
`DesktopFile(std::istream&)` of linuxdeploy. -/
def resourcesLoop (parse : List Char → Except Exception DesktopFile) :
    FilesRun → desktop_integration_resources → Result desktop_integration_resources
  | FilesRun.completed, resources => Result.returned resources
  | FilesRun.raised e, _ => Result.raised e
  | FilesRun.entry fileName content rest, resources =>
    if isMainDesktopFile fileName then
      match content with
      | Except.error e => Result.raised e
      | Except.ok bytes =>
        match parse bytes with
        | Except.error e => Result.raised e
        | Except.ok file => resourcesLoop parse rest { resources with desktopFile := some file }
    else resourcesLoop parse rest resources

/-- The helper `priv::getDesktopIntegrationResources`. -/
def getDesktopIntegrationResources (parse : List Char → Except Exception DesktopFile)
    (d : Integrator) : Result desktop_integration_resources :=
  resourcesLoop parse d.files { desktopFile := none }

/-- The helper `priv::buildDesktopFilePath`. -/
def buildDesktopFilePath (hash : HashLib) (d : Integrator)
    (resources : desktop_integration_resources) : Result (List Char) :=
  -- Get AppImage path md5
  let digest := hash.md5 d.appImagePath
  let pathMD5 := hash.toHex digest
  -- Get application name
  match resources.desktopFile with
  | none => Result.undefined
  | some desktopFile =>
    match DesktopFile.getEntry desktopFile "Desktop Entry".toList "Name".toList with
    | none =>
      Result.raised ⟨ErrorKind.AppImageReadError,
        "Error while reading AppImage desktop file. Missing Name entry.".toList⟩
    | some value =>
      -- scape application name to make a valid desktop file name part
      let applicationNameScaped := value
      let applicationNameScaped := trim applicationNameScaped
      let applicationNameScaped := replace_all applicationNameScaped " ".toList "_".toList
      -- assemble the desktop file path
      let desktopFileName :=
        "appimagekit_".toList ++ pathMD5 ++ "-".toList ++ applicationNameScaped ++
          ".desktop".toList
      Result.returned (d.userDataDir ++ "/applications/".toList ++ desktopFileName)

/-- The member `Integrator::getDesktopFilePath`. -/
def getDesktopFilePath (hash : HashLib) (parse : List Char → Except Exception DesktopFile)
    (d : Integrator) : Result (List Char) :=
  match getDesktopIntegrationResources parse d with
  | Result.returned resources => buildDesktopFilePath hash d resources
  | Result.raised e => Result.raised e
  | Result.undefined => Result.undefined

end Integrator

section Traversal

open traversal_type_1

/-! ## Properties of the C library model -/

theorem sign_ne_zero (p : Prop) [Decidable p] : ¬ (if p then (-1 : Int) else 1) = 0 := by
  split <;> decide

theorem strcmp_eq_zero_iff (a b : List Char) : strcmp a b = 0 ↔ a = b := by
  induction a generalizing b with
  | nil => cases b <;> simp [strcmp]
  | cons x xs ih =>
    cases b with
    | nil => simp [strcmp]
    | cons y ys =>
      by_cases hxy : x = y
      · simp [strcmp, hxy, ih]
      · simp [strcmp, hxy, sign_ne_zero]

theorem strncmp_dot_slash (n : List Char) :
    strncmp ['.', '/'] n 2 = 0 ↔ ∃ r, n = '.' :: '/' :: r := by
  match n with
  | [] => simp [strncmp]
  | [x] =>
    by_cases hx : '.' = x
    · subst hx; simp [strncmp]
    · simp [strncmp, hx, sign_ne_zero]
  | x :: y :: r =>
    by_cases hx : '.' = x
    · by_cases hy : '/' = y
      · subst hx; subst hy; simp [strncmp]
      · subst hx
        have hy2 : ¬ y = '/' := fun h => hy h.symm
        simp [strncmp, hy, hy2, sign_ne_zero]
    · have hx2 : ¬ x = '.' := fun h => hx h.symm
      simp [strncmp, hx, hx2, sign_ne_zero]

/-! ## Format-1 traversal: entry names -/

theorem getEntryName_of_entry (t : traversal_type_1) (n : List Char)
    (hcompleted : t.completed = false) (hentry : t.entry = some n) :
    (['.', '/'] <+: n → getEntryName t = n.drop 2) ∧
    (¬ ['.', '/'] <+: n → getEntryName t = n) ∧
    (∀ r, n = '.' :: '/' :: r → getEntryName t = r) := by
  have hpre : ['.', '/'] <+: n ↔ ∃ r, n = '.' :: '/' :: r := by
    constructor
    · rintro ⟨r, hr⟩
      exact ⟨r, by simpa using hr.symm⟩
    · rintro ⟨r, hr⟩
      exact ⟨r, by simp [hr]⟩
  refine ⟨?_, ?_, ?_⟩
  · intro h
    have h0 := (strncmp_dot_slash n).2 (hpre.1 h)
    simp [getEntryName, hcompleted, hentry, h0]
  · intro h
    have h0 : ¬ strncmp ['.', '/'] n 2 = 0 := fun h0 => h (hpre.2 ((strncmp_dot_slash n).1 h0))
    simp [getEntryName, hcompleted, hentry, h0]
  · intro r hr
    have h0 := (strncmp_dot_slash n).2 ⟨r, hr⟩
    simp only [getEntryName, hcompleted, hentry, h0]
    simp [hr]

/-- C1: while the traversal is not completed and the current record has a path name `n`,
`getEntryName()` returns `n` without its first two characters when `n` begins with "./" and
returns `n` itself in every other case; what follows a leading "./" is returned as it is, so a
"./" further inside the path is never removed. -/
theorem getEntryName_strips_only_leading_dot_slash (t : traversal_type_1) (n : List Char)
    (hcompleted : t.completed = false) (hentry : t.entry = some n) :
    (['.', '/'] <+: n → getEntryName t = n.drop 2) ∧
    (¬ ['.', '/'] <+: n → getEntryName t = n) ∧
    (∀ r, n = '.' :: '/' :: r → getEntryName t = r) :=
  getEntryName_of_entry t n hcompleted hentry

/-- C1 at the record "./usr/./bin": the leading "./" goes, the inner one stays. -/
theorem getEntryName_strips_only_leading_dot_slash_witness :
    getEntryName { path := [], a := [], entry := some "./usr/./bin".toList, completed := false,
                   appImageIStream := false } = "usr/./bin".toList :=
  (getEntryName_strips_only_leading_dot_slash
    { path := [], a := [], entry := some "./usr/./bin".toList, completed := false,
      appImageIStream := false } "./usr/./bin".toList rfl rfl).2.2 "usr/./bin".toList rfl

/-! ## Format-1 traversal: the client loop -/

theorem create_ok_eq_ofRecords (path error_string : List Char) (records : List (List Char)) :
    create path ARCHIVE_OK error_string (records.map Header.ok) =
      Result.returned (ofRecords path records) := rfl

theorem names_eq_of_next_eq (fuel : Nat) (t u : traversal_type_1) (h : next t = next u) :
    names (fuel + 1) t = names (fuel + 1) u := by
  simp only [names, h]

theorem names_of_ok_records (records : List (List Char)) :
    ∀ (fuel : Nat) (t : traversal_type_1),
      t.a = records.map Header.ok →
      t.completed = false → records.length < fuel →
      names fuel t = some ((records.filter (fun n => decide (n ≠ ['.']))).map
        (fun n => if ['.', '/'] <+: n then n.drop 2 else n)) := by
  induction records with
  | nil =>
    intro fuel t ha _ hfuel
    obtain ⟨f, rfl⟩ : ∃ f, fuel = f + 1 := ⟨fuel - 1, by simp at hfuel; omega⟩
    simp [names, next, ha, nextFrom, isCompleted]
  | cons n rs ih =>
    intro fuel t ha hc hfuel
    obtain ⟨f, rfl⟩ : ∃ f, fuel = f + 1 := ⟨fuel - 1, by omega⟩
    by_cases hn : n = ['.']
    · -- the record is skipped inside `next()`
      have hstep : next t = next { t with a := rs.map Header.ok, entry := some n } := by
        simp [next, ha, nextFrom, Header.ok, ARCHIVE_OK, ARCHIVE_EOF, hn, strcmp]
      rw [names_eq_of_next_eq f _ _ hstep]
      rw [ih (f + 1) { t with a := rs.map Header.ok, entry := some n } rfl hc
        (by simp at hfuel ⊢; omega)]
      simp [hn]
    · have hcmp : ¬ strcmp n ['.'] = 0 := fun h => hn ((strcmp_eq_zero_iff _ _).1 h)
      obtain ⟨t1, hstep, ha1, he1, hc1⟩ : ∃ t1, next t = (Result.returned (), t1) ∧
          t1.a = rs.map Header.ok ∧ t1.entry = some n ∧ t1.completed = false :=
        ⟨{ t with a := rs.map Header.ok, entry := some n },
          by simp [next, ha, nextFrom, Header.ok, ARCHIVE_OK, ARCHIVE_EOF, hcmp], rfl, rfl, hc⟩
      have hrest := ih f t1 ha1 hc1 (by simp at hfuel ⊢; omega)
      have hname := getEntryName_of_entry t1 n hc1 he1
      simp only [names, hstep, isCompleted, hc1, hrest]
      by_cases hp : ['.', '/'] <+: n
      · simp [hn, hp, hname.1 hp]
      · simp [hn, hp, hname.2.1 hp]

/-- C2: over a package whose reader delivers the records `records` without error, however many
of them are named ".", the loop of `next()`, `isCompleted()` and `getEntryName()` ends after at
most `records.length + 1` calls of `next()`; the names it observes are those of the records not
named ".", one for each such record and in the order of the records (each reported the way
`getEntryName()` reports it, without a leading "./"), and no record named "." is observed. -/
theorem names_visits_every_record_but_dot_once (path : List Char)
    (records : List (List Char)) (fuel : Nat) (hfuel : records.length < fuel) :
    names fuel (ofRecords path records) =
      some ((records.filter (fun n => decide (n ≠ ['.']))).map
        (fun n => if ['.', '/'] <+: n then n.drop 2 else n)) :=
  names_of_ok_records records fuel (ofRecords path records) rfl rfl hfuel

/-- C2 at the records ".", "./a", ".", ".", "b/c": two names are observed. -/
theorem names_visits_every_record_but_dot_once_witness :
    names 6 (ofRecords "x.AppImage".toList
      [".".toList, "./a".toList, ".".toList, ".".toList, "b/c".toList]) =
      some ["a".toList, "b/c".toList] :=
  (names_visits_every_record_but_dot_once "x.AppImage".toList
    [".".toList, "./a".toList, ".".toList, ".".toList, "b/c".toList] 6 (by decide)).trans
    (by decide)

/-- C3, as stated, fails: over the records "./", "./a.txt", "./b.txt" no run of the loop
observes exactly the two names "a.txt", "b.txt". -/
theorem names_dot_slash_root_not_two_names :
    ¬ ∃ fuel, names fuel (ofRecords "x.AppImage".toList
        ["./".toList, "./a.txt".toList, "./b.txt".toList]) =
      some ["a.txt".toList, "b.txt".toList] := by
  rintro ⟨fuel, h⟩
  by_cases hfuel : 3 < fuel
  · rw [names_of_ok_records ["./".toList, "./a.txt".toList, "./b.txt".toList] fuel _ rfl rfl
      (by simpa using hfuel)] at h
    exact absurd h (by decide)
  · have h3 : fuel = 0 ∨ fuel = 1 ∨ fuel = 2 ∨ fuel = 3 := by omega
    rcases h3 with rfl | rfl | rfl | rfl <;> exact absurd h (by decide)

/-- C3, amended: over the records "./", "./a.txt", "./b.txt" the loop ends and observes the
three names "", "a.txt", "b.txt" in that order; the record "./" is not skipped (only a record
named exactly "." is) and is observed under the empty name. -/
theorem names_dot_slash_root_observed_as_empty (fuel : Nat) (hfuel : 4 ≤ fuel) :
    names fuel (ofRecords "x.AppImage".toList
        ["./".toList, "./a.txt".toList, "./b.txt".toList]) =
      some [[], "a.txt".toList, "b.txt".toList] :=
  (names_of_ok_records ["./".toList, "./a.txt".toList, "./b.txt".toList] fuel _ rfl rfl
    (by simpa using hfuel)).trans (by decide)

/-- C3, amended, with room for four calls of `next()`. -/
theorem names_dot_slash_root_observed_as_empty_witness :
    names 4 (ofRecords "x.AppImage".toList
        ["./".toList, "./a.txt".toList, "./b.txt".toList]) =
      some [[], "a.txt".toList, "b.txt".toList] :=
  names_dot_slash_root_observed_as_empty 4 (by decide)

/-! ## Format-1 traversal: completion -/

theorem nextFrom_completed (l : List Header) :
    ∀ t : traversal_type_1, t.completed = true → (nextFrom l t).2.completed = true := by
  induction l with
  | nil => intro t _; simp [nextFrom]
  | cons h rest ih =>
    intro t ht
    simp only [nextFrom]
    split
    · rfl
    · split
      · exact ht
      · split
        · exact ht
        · split
          · exact ih _ ht
          · exact ht

/-- C4: a session is not completed right after construction, and from a state in which
`isCompleted()` is true every operation (`next()`, `getEntryName()`, `extract()`, `read()`),
whether it returns or throws, leaves a state in which `isCompleted()` is true. -/
theorem completed_is_monotone :
    (∀ path openStatus error_string records t,
      create path openStatus error_string records = Result.returned t →
        isCompleted t = false) ∧
    (∀ (op : Op) (t : traversal_type_1), isCompleted t = true →
        isCompleted (after op t) = true) := by
  constructor
  · intro path openStatus error_string records t h
    unfold create at h
    split at h
    · cases h
    · cases h; rfl
  · intro op t ht
    cases op with
    | next => exact nextFrom_completed t.a t ht
    | getEntryName => exact ht
    | extract env target =>
      simp only [after, extract]
      split
      · exact ht
      · split <;> exact ht
    | read => exact ht

/-- C4 at a completed session whose reader would still answer with a record: `next()` after
completion leaves the session completed. -/
theorem completed_is_monotone_witness :
    isCompleted (after Op.next
      { path := [], a := [Header.ok "late".toList], entry := none, completed := true,
        appImageIStream := false }) = true :=
  completed_is_monotone.2 Op.next
    { path := [], a := [Header.ok "late".toList], entry := none, completed := true,
      appImageIStream := false } rfl

/-! ## Format-1 traversal: read errors -/

theorem nextFrom_raised_iff (l : List Header) :
    ∀ (t : traversal_type_1) (e : Exception),
      (nextFrom l t).1 = Result.raised e ↔
        ∃ pre h post, l = pre ++ h :: post ∧
          (∀ p ∈ pre, p.status = ARCHIVE_OK ∧ p.pathname = some ['.']) ∧
          h.status ≠ ARCHIVE_OK ∧ h.status ≠ ARCHIVE_EOF ∧
          e = ⟨ErrorKind.AppImageReadError, h.error_string⟩ := by
  induction l with
  | nil => intro t e; simp [nextFrom]
  | cons h rest ih =>
    intro t e
    by_cases heof : h.status = ARCHIVE_EOF
    · have hnok : h.status ≠ ARCHIVE_OK := by rw [heof]; decide
      simp only [nextFrom, heof, if_true]
      constructor
      · intro hr; cases hr
      · rintro ⟨pre, h', post, hl, hpre, _, hne, _⟩
        cases pre with
        | nil =>
          simp only [List.nil_append, List.cons.injEq] at hl
          exact absurd (hl.1 ▸ heof) hne
        | cons p pre' =>
          simp only [List.cons_append, List.cons.injEq] at hl
          exact absurd (hl.1 ▸ (hpre p (List.mem_cons_self _ _)).1) hnok
    · by_cases hok : h.status = ARCHIVE_OK
      · have hoe : ¬ ARCHIVE_OK = ARCHIVE_EOF := by decide
        cases hp : h.pathname with
        | none =>
          simp only [nextFrom, heof, hok, hoe, hp, if_false, ne_eq, not_true_eq_false]
          constructor
          · intro hr; cases hr
          · rintro ⟨pre, h', post, hl, hpre, hne, _, _⟩
            cases pre with
            | nil =>
              simp only [List.nil_append, List.cons.injEq] at hl
              exact absurd (hl.1 ▸ hok) hne
            | cons p pre' =>
              simp only [List.cons_append, List.cons.injEq] at hl
              have := (hpre p (List.mem_cons_self _ _)).2
              rw [← hl.1, hp] at this
              cases this
        | some name =>
          by_cases hdot : name = ['.']
          · have hcmp : strcmp name ['.'] = 0 := (strcmp_eq_zero_iff _ _).2 hdot
            simp only [nextFrom, heof, hok, hoe, hp, hcmp, if_false, if_true, ne_eq,
              not_true_eq_false]
            rw [ih]
            constructor
            · rintro ⟨pre, h', post, hl, hpre, hrest⟩
              refine ⟨h :: pre, h', post, by simp [hl], ?_, hrest⟩
              intro p hmem
              rcases List.mem_cons.1 hmem with rfl | hmem
              · exact ⟨hok, by rw [hp, hdot]⟩
              · exact hpre p hmem
            · rintro ⟨pre, h', post, hl, hpre, hne, hrest⟩
              cases pre with
              | nil =>
                simp only [List.nil_append, List.cons.injEq] at hl
                exact absurd (hl.1 ▸ hok) hne
              | cons p pre' =>
                simp only [List.cons_append, List.cons.injEq] at hl
                exact ⟨pre', h', post, hl.2,
                  fun q hq => hpre q (List.mem_cons_of_mem _ hq), hne, hrest⟩
          · have hcmp : ¬ strcmp name ['.'] = 0 := fun hc => hdot ((strcmp_eq_zero_iff _ _).1 hc)
            simp only [nextFrom, heof, hok, hoe, hp, hcmp, if_false, ne_eq, not_true_eq_false]
            constructor
            · intro hr; cases hr
            · rintro ⟨pre, h', post, hl, hpre, hne, _, _⟩
              cases pre with
              | nil =>
                simp only [List.nil_append, List.cons.injEq] at hl
                exact absurd (hl.1 ▸ hok) hne
              | cons p pre' =>
                simp only [List.cons_append, List.cons.injEq] at hl
                have := (hpre p (List.mem_cons_self _ _)).2
                rw [← hl.1, hp] at this
                exact absurd (Option.some.inj this) hdot
      · simp only [nextFrom, heof, hok, if_false, ne_eq, not_false_eq_true, if_true]
        constructor
        · intro hr
          refine ⟨[], h, rest, rfl, by simp, hok, heof, ?_⟩
          cases hr; rfl
        · rintro ⟨pre, h', post, hl, hpre, _, _, he⟩
          cases pre with
          | nil =>
            simp only [List.nil_append, List.cons.injEq] at hl
            rw [he, hl.1]
          | cons p pre' =>
            simp only [List.cons_append, List.cons.injEq] at hl
            exact absurd (hl.1 ▸ (hpre p (List.mem_cons_self _ _)).1) hok

theorem nextFrom_raised_completed (l : List Header) :
    ∀ (t : traversal_type_1) (e : Exception),
      (nextFrom l t).1 = Result.raised e → (nextFrom l t).2.completed = t.completed := by
  induction l with
  | nil => intro t e h; simp [nextFrom] at h
  | cons h rest ih =>
    intro t e
    simp only [nextFrom]
    split
    · intro hr; cases hr
    · split
      · intro _; rfl
      · split
        · intro hr; cases hr
        · split
          · intro hr; exact ih _ e hr
          · intro hr; cases hr

/-- C5: `next()` throws exactly when a read step of the reader, the first one or one made after
skipping records named ".", answers with a status that is neither `ARCHIVE_OK` nor
`ARCHIVE_EOF`; what it throws is an `AppImageReadError` carrying the reader's error string, and
when it throws it leaves the `completed` flag as it was. -/
theorem next_raises_exactly_on_read_failure (t : traversal_type_1) (e : Exception) :
    ((next t).1 = Result.raised e ↔
      ∃ pre h post, t.a = pre ++ h :: post ∧
        (∀ p ∈ pre, p.status = ARCHIVE_OK ∧ p.pathname = some ['.']) ∧
        h.status ≠ ARCHIVE_OK ∧ h.status ≠ ARCHIVE_EOF ∧
        e = ⟨ErrorKind.AppImageReadError, h.error_string⟩) ∧
    ((next t).1 = Result.raised e → (next t).2.completed = t.completed) :=
  ⟨nextFrom_raised_iff t.a t e, nextFrom_raised_completed t.a t e⟩

/-- C5 at a reader that delivers "." and then fails with `ARCHIVE_FATAL`: `next()` throws the
reader's message and the session is still not completed. -/
theorem next_raises_exactly_on_read_failure_witness :
    (next { path := [], a := [Header.ok ['.'], ⟨ARCHIVE_FATAL, none, "truncated".toList⟩],
            entry := none, completed := false, appImageIStream := false }).1 =
        Result.raised ⟨ErrorKind.AppImageReadError, "truncated".toList⟩ ∧
    (next { path := [], a := [Header.ok ['.'], ⟨ARCHIVE_FATAL, none, "truncated".toList⟩],
            entry := none, completed := false, appImageIStream := false }).2.completed =
        false :=
  ⟨(next_raises_exactly_on_read_failure _ _).1.2
      ⟨[Header.ok ['.']], ⟨ARCHIVE_FATAL, none, "truncated".toList⟩, [], rfl, by decide,
        by decide, by decide, rfl⟩,
    (next_raises_exactly_on_read_failure
      { path := [], a := [Header.ok ['.'], ⟨ARCHIVE_FATAL, none, "truncated".toList⟩],
        entry := none, completed := false, appImageIStream := false }
      ⟨ErrorKind.AppImageReadError, "truncated".toList⟩).2 (by decide)⟩

/-! ## Format-1 traversal: extraction -/

/-- C6: with the destination opened (descriptor 3) and `archive_read_data_into_fd` reporting
`ARCHIVE_FATAL`, `extract` returns normally instead of throwing: the status of the copy is not
looked at. -/
theorem extract_returns_although_copy_failed :
    (extract { createDirectoriesError := none, openResult := 3, copyStatus := ARCHIVE_FATAL }
      "/tmp/out/a.txt".toList
      { path := "x.AppImage".toList, a := [], entry := some "./a.txt".toList,
        completed := false, appImageIStream := false }).1 = Result.returned () := by
  decide

end Traversal

section CInterface

/-! ## Properties of `std::string::find` -/

theorem findFrom_ne_none_iff (pat s : List Char) :
    ∀ pos, findFrom pat s pos ≠ none ↔ pat <:+: s := by
  induction s with
  | nil =>
    intro pos
    by_cases hp : pat = []
    · simp [findFrom, hp]
    · simp [findFrom, hp]
  | cons c cs ih =>
    intro pos
    by_cases hpre : pat.isPrefixOf (c :: cs) = true
    · have hinf : pat <:+: c :: cs := (List.isPrefixOf_iff_prefix.1 hpre).isInfix
      simp [findFrom, hpre, hinf]
    · have hnp : ¬ pat <+: c :: cs := fun h => hpre (List.isPrefixOf_iff_prefix.2 h)
      simp only [findFrom, hpre, if_false, Bool.false_eq_true]
      rw [ih (pos + 1), List.infix_cons_iff]
      constructor
      · exact fun h => Or.inr h
      · rintro (h | h)
        · exact absurd h hnp
        · exact h

theorem findFrom_char_eq_none_iff (c : Char) (s : List Char) :
    ∀ pos, findFrom [c] s pos = none ↔ c ∉ s := by
  induction s with
  | nil => intro pos; simp [findFrom]
  | cons x xs ih =>
    intro pos
    by_cases hx : c = x
    · subst hx
      simp [findFrom, List.isPrefixOf]
    · simp [findFrom, List.isPrefixOf, hx, ih (pos + 1)]

theorem isMain_iff (name : List Char) :
    (find name ".desktop".toList ≠ none ∧ find_char name '/' = none) ↔
      (".desktop".toList <:+: name ∧ '/' ∉ name) := by
  rw [find, find_char, findFrom_ne_none_iff, findFrom_char_eq_none_iff]

/-! ## Runs of the file iterator -/

theorem FilesRun.prepend_nil (tail : FilesRun) : FilesRun.prepend [] tail = tail := rfl

theorem FilesRun.prepend_cons (p : List Char × Except Exception (List Char))
    (pre : List (List Char × Except Exception (List Char))) (tail : FilesRun) :
    FilesRun.prepend (p :: pre) tail = FilesRun.entry p.1 p.2 (FilesRun.prepend pre tail) := rfl

theorem FilesRun.exists_prepend (run : FilesRun) :
    ∃ pre, run = FilesRun.prepend pre FilesRun.completed ∨
      ∃ e, run = FilesRun.prepend pre (FilesRun.raised e) := by
  induction run with
  | completed => exact ⟨[], Or.inl rfl⟩
  | raised e => exact ⟨[], Or.inr ⟨e, rfl⟩⟩
  | entry name content rest ih =>
    obtain ⟨pre, h | ⟨e, h⟩⟩ := ih
    · exact ⟨(name, content) :: pre, Or.inl (by rw [FilesRun.prepend_cons, ← h])⟩
    · exact ⟨(name, content) :: pre, Or.inr ⟨e, by rw [FilesRun.prepend_cons, ← h]⟩⟩

/-! ## C interface: `appimage_list_files` -/

theorem listFilesLoop_prepend (pre : List (List Char × Except Exception (List Char)))
    (tail : FilesRun) :
    ∀ files, listFilesLoop (FilesRun.prepend pre tail) files =
      listFilesLoop tail (files ++ (pre.map Prod.fst).filter (fun n => decide (n ≠ []))) := by
  induction pre with
  | nil => intro files; simp [FilesRun.prepend_nil]
  | cons p pre ih =>
    intro files
    rw [FilesRun.prepend_cons]
    by_cases hp : p.1 = []
    · simp [listFilesLoop, hp, ih]
    · simp [listFilesLoop, hp, ih]

/-- C10: `appimage_list_files` never returns the null pointer; what it returns is a list of
strings closed by one null slot. When the package opens and the iteration completes, the
strings are the names met by the iteration without the empty ones, in the order of the
iteration; when opening or advancing throws at any point, the list is empty, whatever names
had been met before. -/
theorem appimage_list_files_spec (pre : List (List Char × Except Exception (List Char))) :
    (∀ run, ∃ names : List (List Char),
      appimage_list_files run = some (names.map some ++ [none]) ∧ [] ∉ names) ∧
    appimage_list_files (FilesRun.prepend pre FilesRun.completed) =
      some (((pre.map Prod.fst).filter (fun n => decide (n ≠ []))).map some ++ [none]) ∧
    (∀ e, appimage_list_files (FilesRun.prepend pre (FilesRun.raised e)) = some [none]) := by
  have hcompleted : ∀ pre : List (List Char × Except Exception (List Char)),
      appimage_list_files (FilesRun.prepend pre FilesRun.completed) =
        some (((pre.map Prod.fst).filter (fun n => decide (n ≠ []))).map some ++ [none]) := by
    intro pre
    simp [appimage_list_files, listFilesLoop_prepend, listFilesLoop]
  have hraised : ∀ (pre : List (List Char × Except Exception (List Char))) e,
      appimage_list_files (FilesRun.prepend pre (FilesRun.raised e)) = some [none] := by
    intro pre e
    simp [appimage_list_files, listFilesLoop_prepend, listFilesLoop]
  refine ⟨?_, hcompleted pre, hraised pre⟩
  intro run
  obtain ⟨pre', h | ⟨e, h⟩⟩ := FilesRun.exists_prepend run
  · refine ⟨(pre'.map Prod.fst).filter (fun n => decide (n ≠ [])), ?_, ?_⟩
    · rw [h, hcompleted]
    · simp [List.mem_filter]
  · exact ⟨[], by rw [h, hraised]; rfl, by simp⟩

/-! ## C interface: `appimage_read_file_into_buffer_following_symlinks` -/

theorem readFileLoop_prepend (file_path : List Char)
    (pre : List (List Char × Except Exception (List Char))) (tail : FilesRun)
    (hpre : ∀ p ∈ pre, p.1 ≠ file_path) :
    readFileLoop file_path (FilesRun.prepend pre tail) = readFileLoop file_path tail := by
  induction pre with
  | nil => rfl
  | cons p pre ih =>
    rw [FilesRun.prepend_cons]
    have hp : ¬ p.1 = file_path := hpre p (List.mem_cons_self _ _)
    simp only [readFileLoop, hp, if_false]
    exact ih (fun q hq => hpre q (List.mem_cons_of_mem _ hq))

theorem readFileLoop_found (file_path data : List Char) (run : FilesRun)
    (h : readFileLoop file_path run = some (some data)) :
    ∃ pre rest, run = FilesRun.prepend pre (FilesRun.entry file_path (Except.ok data) rest) ∧
      ∀ p ∈ pre, p.1 ≠ file_path := by
  induction run with
  | completed => simp [readFileLoop] at h
  | raised e => simp [readFileLoop] at h
  | entry name content rest ih =>
    by_cases hn : name = file_path
    · subst hn
      cases content with
      | error e => simp [readFileLoop] at h
      | ok bytes =>
        simp only [readFileLoop, if_true, Option.some.injEq] at h
        subst h
        exact ⟨[], rest, rfl, by simp⟩
    · simp only [readFileLoop, hn, if_false] at h
      obtain ⟨pre, rest', hrun, hpre⟩ := ih h
      refine ⟨(name, content) :: pre, rest', by rw [FilesRun.prepend_cons, ← hrun], ?_⟩
      intro p hp
      rcases List.mem_cons.1 hp with rfl | hp
      · exact hn
      · exact hpre p hp

/-- C9: `appimage_read_file_into_buffer_following_symlinks` returns `true` exactly when the
package opens, the iteration reaches without an exception an entry named `file_path` and
reading that entry does not throw; the buffer then holds the content of the first such entry
and the size is its length. Whenever it returns `false` the buffer is null and the size is 0,
whatever they held on entry. -/
theorem appimage_read_file_into_buffer_following_symlinks_spec (run : FilesRun)
    (file_path : List Char) (out : BufferOut) :
    ((appimage_read_file_into_buffer_following_symlinks run file_path out).1 = true ↔
      ∃ pre data rest,
        run = FilesRun.prepend pre (FilesRun.entry file_path (Except.ok data) rest) ∧
        ∀ p ∈ pre, p.1 ≠ file_path) ∧
    (∀ pre data rest,
      run = FilesRun.prepend pre (FilesRun.entry file_path (Except.ok data) rest) →
      (∀ p ∈ pre, p.1 ≠ file_path) →
      appimage_read_file_into_buffer_following_symlinks run file_path out =
        (true, { buffer := some data, buf_size := data.length })) ∧
    ((appimage_read_file_into_buffer_following_symlinks run file_path out).1 = false →
      (appimage_read_file_into_buffer_following_symlinks run file_path out).2 =
        { buffer := none, buf_size := 0 }) := by
  have hfound : ∀ pre data rest,
      run = FilesRun.prepend pre (FilesRun.entry file_path (Except.ok data) rest) →
      (∀ p ∈ pre, p.1 ≠ file_path) →
      appimage_read_file_into_buffer_following_symlinks run file_path out =
        (true, { buffer := some data, buf_size := data.length }) := by
    intro pre data rest hrun hpre
    simp [appimage_read_file_into_buffer_following_symlinks, hrun,
      readFileLoop_prepend file_path pre _ hpre, readFileLoop]
  refine ⟨⟨?_, ?_⟩, hfound, ?_⟩
  · intro h
    cases hloop : readFileLoop file_path run with
    | none => simp [appimage_read_file_into_buffer_following_symlinks, hloop] at h
    | some found =>
      cases found with
      | none => simp [appimage_read_file_into_buffer_following_symlinks, hloop] at h
      | some data =>
        obtain ⟨pre, rest, hrun, hpre⟩ := readFileLoop_found file_path data run hloop
        exact ⟨pre, data, rest, hrun, hpre⟩
  · rintro ⟨pre, data, rest, hrun, hpre⟩
    rw [hfound pre data rest hrun hpre]
  · intro h
    cases hloop : readFileLoop file_path run with
    | none => simp [appimage_read_file_into_buffer_following_symlinks, hloop]
    | some found =>
      cases found with
      | none => simp [appimage_read_file_into_buffer_following_symlinks, hloop]
      | some data => simp [appimage_read_file_into_buffer_following_symlinks, hloop] at h

/-- C9 at a package with the entries "a" and "b", asked for "b" with a buffer and a size left
over from an earlier call. -/
theorem appimage_read_file_into_buffer_following_symlinks_spec_witness :
    appimage_read_file_into_buffer_following_symlinks
      (FilesRun.prepend [("a".toList, Except.ok "A".toList)]
        (FilesRun.entry "b".toList (Except.ok "BB".toList) FilesRun.completed))
      "b".toList { buffer := some "old".toList, buf_size := 7 } =
      (true, { buffer := some "BB".toList, buf_size := 2 }) :=
  (appimage_read_file_into_buffer_following_symlinks_spec
    (FilesRun.prepend [("a".toList, Except.ok "A".toList)]
      (FilesRun.entry "b".toList (Except.ok "BB".toList) FilesRun.completed))
    "b".toList { buffer := some "old".toList, buf_size := 7 }).2.1
    [("a".toList, Except.ok "A".toList)] "BB".toList FilesRun.completed rfl (by decide)

/-! ## C interface: `appimage_shall_not_be_integrated` -/

theorem loadDesktopEntryLoop_prepend (parse : List Char → Except Exception DesktopEntry)
    (pre : List (List Char × Except Exception (List Char))) (tail : FilesRun)
    (entry : DesktopEntry)
    (hpre : ∀ p ∈ pre, ¬ (".desktop".toList <:+: p.1 ∧ '/' ∉ p.1)) :
    loadDesktopEntryLoop parse (FilesRun.prepend pre tail) entry =
      loadDesktopEntryLoop parse tail entry := by
  induction pre with
  | nil => rfl
  | cons p pre ih =>
    rw [FilesRun.prepend_cons]
    have hp : ¬ (find p.1 ".desktop".toList ≠ none ∧ find_char p.1 '/' = none) :=
      fun h => hpre p (List.mem_cons_self _ _) ((isMain_iff p.1).1 h)
    simp only [loadDesktopEntryLoop, hp, if_false]
    exact ih (fun q hq => hpre q (List.mem_cons_of_mem _ hq))

theorem integrate_value_iff (entry : DesktopEntry) :
    trim (to_lower
        (DesktopEntry.get entry "Desktop Entry/X-AppImage-Integrate".toList "true".toList)) =
      "false".toList ↔
    ∃ v, entry.lookup "Desktop Entry/X-AppImage-Integrate".toList = some v ∧
      trim (to_lower v) = "false".toList := by
  unfold DesktopEntry.get
  cases h : entry.lookup "Desktop Entry/X-AppImage-Integrate".toList with
  | none =>
    have hdefault : ¬ trim (to_lower "true".toList) = "false".toList := by decide
    constructor
    · intro h1; exact absurd h1 hdefault
    · rintro ⟨v, hv, _⟩; cases hv
  | some v =>
    constructor
    · intro h1; exact ⟨v, rfl, h1⟩
    · rintro ⟨w, hw, h1⟩
      cases hw
      exact h1

theorem shall_not_of_loaded_false (parse : List Char → Except Exception DesktopEntry)
    (run : FilesRun) (entry : DesktopEntry)
    (hloop : loadDesktopEntryLoop parse run [] = some entry)
    (h : trim (to_lower
        (DesktopEntry.get entry "Desktop Entry/X-AppImage-Integrate".toList "true".toList)) =
      "false".toList) :
    appimage_shall_not_be_integrated parse run = 1 := by
  unfold appimage_shall_not_be_integrated
  rw [hloop]
  exact if_pos h

theorem shall_not_of_loaded_other (parse : List Char → Except Exception DesktopEntry)
    (run : FilesRun) (entry : DesktopEntry)
    (hloop : loadDesktopEntryLoop parse run [] = some entry)
    (h : ¬ trim (to_lower
        (DesktopEntry.get entry "Desktop Entry/X-AppImage-Integrate".toList "true".toList)) =
      "false".toList) :
    appimage_shall_not_be_integrated parse run = 0 := by
  unfold appimage_shall_not_be_integrated
  rw [hloop]
  exact if_neg h

theorem shall_not_of_exception (parse : List Char → Except Exception DesktopEntry)
    (run : FilesRun) (hloop : loadDesktopEntryLoop parse run [] = none) :
    appimage_shall_not_be_integrated parse run = -1 := by
  unfold appimage_shall_not_be_integrated
  rw [hloop]

/-- C8: `appimage_shall_not_be_integrated` returns 1, 0 or -1 and nothing else. With the main
desktop file being the first entry of the iteration whose name contains ".desktop" and no '/':
when that entry is read and parsed, the result is positive exactly when the key
"X-AppImage-Integrate" of "Desktop Entry" is set to a value that is "false" after lower-casing
and trimming, and 0 exactly when it is not (also when the key is absent); the result is
negative exactly when reading or parsing the entry throws. When the iteration completes
without a main desktop file the result is 0, and when opening or advancing throws before one
is met the result is -1. -/
theorem appimage_shall_not_be_integrated_spec
    (parse : List Char → Except Exception DesktopEntry) (run : FilesRun) :
    (appimage_shall_not_be_integrated parse run = 1 ∨
      appimage_shall_not_be_integrated parse run = 0 ∨
      appimage_shall_not_be_integrated parse run = -1) ∧
    (∀ pre name content rest, run = FilesRun.prepend pre (FilesRun.entry name content rest) →
      (∀ p ∈ pre, ¬ (".desktop".toList <:+: p.1 ∧ '/' ∉ p.1)) →
      (".desktop".toList <:+: name ∧ '/' ∉ name) →
      (∀ bytes entry, content = Except.ok bytes → parse bytes = Except.ok entry →
        (0 < appimage_shall_not_be_integrated parse run ↔
          ∃ v, entry.lookup "Desktop Entry/X-AppImage-Integrate".toList = some v ∧
            trim (to_lower v) = "false".toList) ∧
        (appimage_shall_not_be_integrated parse run = 0 ↔
          ¬ ∃ v, entry.lookup "Desktop Entry/X-AppImage-Integrate".toList = some v ∧
            trim (to_lower v) = "false".toList)) ∧
      (appimage_shall_not_be_integrated parse run < 0 ↔
        (∃ e, content = Except.error e) ∨
        ∃ bytes e, content = Except.ok bytes ∧ parse bytes = Except.error e)) ∧
    (∀ pre, run = FilesRun.prepend pre FilesRun.completed →
      (∀ p ∈ pre, ¬ (".desktop".toList <:+: p.1 ∧ '/' ∉ p.1)) →
      appimage_shall_not_be_integrated parse run = 0) ∧
    (∀ pre e, run = FilesRun.prepend pre (FilesRun.raised e) →
      (∀ p ∈ pre, ¬ (".desktop".toList <:+: p.1 ∧ '/' ∉ p.1)) →
      appimage_shall_not_be_integrated parse run = -1) := by
  refine ⟨?_, ?_, ?_, ?_⟩
  · cases hloop : loadDesktopEntryLoop parse run [] with
    | none => exact Or.inr (Or.inr (shall_not_of_exception parse run hloop))
    | some entry =>
      by_cases h : trim (to_lower (DesktopEntry.get entry
          "Desktop Entry/X-AppImage-Integrate".toList "true".toList)) = "false".toList
      · exact Or.inl (shall_not_of_loaded_false parse run entry hloop h)
      · exact Or.inr (Or.inl (shall_not_of_loaded_other parse run entry hloop h))
  · intro pre name content rest hrun hpre hmain
    subst hrun
    have hfind := (isMain_iff name).2 hmain
    have hloop : loadDesktopEntryLoop parse
        (FilesRun.prepend pre (FilesRun.entry name content rest)) [] =
        match content with
        | Except.error _ => none
        | Except.ok bytes =>
          match parse bytes with
          | Except.error _ => none
          | Except.ok loaded => some loaded := by
      rw [loadDesktopEntryLoop_prepend parse pre _ [] hpre]
      simp only [loadDesktopEntryLoop]
      exact if_pos hfind
    constructor
    · intro bytes entry hcontent hparse
      subst hcontent
      simp only [hparse] at hloop
      rw [← integrate_value_iff]
      by_cases h : trim (to_lower (DesktopEntry.get entry
          "Desktop Entry/X-AppImage-Integrate".toList "true".toList)) = "false".toList
      · rw [shall_not_of_loaded_false parse _ entry hloop h]
        exact ⟨⟨fun _ => h, fun _ => by decide⟩,
          ⟨fun h1 => absurd h1 (by decide), fun h1 => absurd h h1⟩⟩
      · rw [shall_not_of_loaded_other parse _ entry hloop h]
        exact ⟨⟨fun h1 => absurd h1 (by decide), fun h1 => absurd h1 h⟩,
          ⟨fun _ => h, fun _ => rfl⟩⟩
    · cases content with
      | error e =>
        rw [shall_not_of_exception parse _ hloop]
        exact ⟨fun _ => Or.inl ⟨e, rfl⟩, fun _ => by decide⟩
      | ok bytes =>
        cases hparse : parse bytes with
        | error e =>
          simp only [hparse] at hloop
          rw [shall_not_of_exception parse _ hloop]
          exact ⟨fun _ => Or.inr ⟨bytes, e, rfl, hparse⟩, fun _ => by decide⟩
        | ok entry =>
          simp only [hparse] at hloop
          have hnot : ¬ ((∃ e, (Except.ok bytes : Except Exception (List Char)) =
              Except.error e) ∨
              ∃ bytes' e, (Except.ok bytes : Except Exception (List Char)) = Except.ok bytes' ∧
                parse bytes' = Except.error e) := by
            rintro (⟨e, he⟩ | ⟨bytes', e, hb, he⟩)
            · cases he
            · cases hb
              rw [hparse] at he
              cases he
          by_cases h : trim (to_lower (DesktopEntry.get entry
              "Desktop Entry/X-AppImage-Integrate".toList "true".toList)) = "false".toList
          · rw [shall_not_of_loaded_false parse _ entry hloop h]
            exact ⟨fun h1 => absurd h1 (by decide), fun h1 => absurd h1 hnot⟩
          · rw [shall_not_of_loaded_other parse _ entry hloop h]
            exact ⟨fun h1 => absurd h1 (by decide), fun h1 => absurd h1 hnot⟩
  · intro pre hrun hpre
    have hdefault : ¬ trim (to_lower (DesktopEntry.get []
        "Desktop Entry/X-AppImage-Integrate".toList "true".toList)) = "false".toList := by
      decide
    exact shall_not_of_loaded_other parse run []
      (by rw [hrun, loadDesktopEntryLoop_prepend parse pre _ [] hpre]; rfl) hdefault
  · intro pre e hrun hpre
    exact shall_not_of_exception parse run
      (by rw [hrun, loadDesktopEntryLoop_prepend parse pre _ [] hpre]; rfl)

/-- C8 at a package whose first entry with ".desktop" in its name lies in a directory and whose
main desktop file sets the key to " False". -/
theorem appimage_shall_not_be_integrated_spec_witness :
    0 < appimage_shall_not_be_integrated
      (fun _ => Except.ok [("Desktop Entry/X-AppImage-Integrate".toList, " False".toList)])
      (FilesRun.prepend [("usr/share/app.desktop".toList, Except.ok [])]
        (FilesRun.entry "app.desktop".toList (Except.ok []) FilesRun.completed)) :=
  (((appimage_shall_not_be_integrated_spec
      (fun _ => Except.ok [("Desktop Entry/X-AppImage-Integrate".toList, " False".toList)])
      (FilesRun.prepend [("usr/share/app.desktop".toList, Except.ok [])]
        (FilesRun.entry "app.desktop".toList (Except.ok []) FilesRun.completed))).2.1
    [("usr/share/app.desktop".toList, Except.ok [])] "app.desktop".toList (Except.ok [])
    FilesRun.completed rfl (by decide) (by decide)).1 []
    [("Desktop Entry/X-AppImage-Integrate".toList, " False".toList)] rfl rfl).1.2
    ⟨" False".toList, by decide, by decide⟩

end CInterface

section DesktopIntegration

open Integrator

/-! ## Properties of the string algorithms -/

theorem replaceFrom_single (a b : Char) (s : List Char) :
    replaceFrom [a] [b] 0 s = s.map (fun c => if c = a then b else c) := by
  induction s with
  | nil => simp [replaceFrom]
  | cons c cs ih =>
    by_cases hc : a = c
    · subst hc
      simp [replaceFrom, List.isPrefixOf, ih]
    · have hc2 : ¬ c = a := fun h => hc h.symm
      simp [replaceFrom, List.isPrefixOf, ih, hc, hc2]

theorem trim_spec (v : List Char) :
    ∃ l r, v = l ++ trim v ++ r ∧ (∀ c ∈ l, isspace c = true) ∧ (∀ c ∈ r, isspace c = true) ∧
      (∀ c, (trim v).head? = some c → isspace c = false) ∧
      (∀ c, (trim v).getLast? = some c → isspace c = false) := by
  have hhead : ∀ (s : List Char) (c : Char),
      (s.dropWhile isspace).head? = some c → isspace c = false := by
    intro s c h
    have := List.head?_dropWhile_not isspace s
    rw [h] at this
    simpa using this
  refine ⟨(trim_right v).takeWhile isspace, (v.reverse.takeWhile isspace).reverse, ?_, ?_, ?_,
    ?_, ?_⟩
  · have h1 : (trim_right v).takeWhile isspace ++ trim v = trim_right v := by
      simp [trim, trim_left, List.takeWhile_append_dropWhile]
    have h2 : trim_right v ++ (v.reverse.takeWhile isspace).reverse = v := by
      have h3 : (v.reverse.takeWhile isspace ++ v.reverse.dropWhile isspace).reverse = v := by
        rw [List.takeWhile_append_dropWhile, List.reverse_reverse]
      rw [List.reverse_append] at h3
      exact h3
    rw [h1, h2]
  · intro c hc
    exact List.mem_takeWhile_imp hc
  · intro c hc
    exact List.mem_takeWhile_imp (List.mem_reverse.1 hc)
  · intro c hc
    exact hhead _ c hc
  · intro c hc
    have hsplit : trim_right v = (trim_right v).takeWhile isspace ++ trim v := by
      simp [trim, trim_left, List.takeWhile_append_dropWhile]
    have hne : trim v ≠ [] := by
      intro h0; rw [h0] at hc; simp at hc
    have hlast : (trim_right v).getLast? = some c := by
      rw [hsplit, List.getLast?_append_of_ne_nil _ hne, hc]
    rw [trim_right, List.getLast?_reverse] at hlast
    exact hhead _ c hlast

/-! ## Desktop integration: the desktop file path -/

theorem replace_all_space_underscore (s : List Char) :
    replace_all s " ".toList "_".toList = s.map (fun c => if c = ' ' then '_' else c) :=
  replaceFrom_single ' ' '_' s

theorem space_not_mem_map_underscore (s : List Char) :
    ' ' ∉ s.map (fun c => if c = ' ' then '_' else c) := by
  intro h
  obtain ⟨c, _, hc⟩ := List.mem_map.1 h
  by_cases hsp : c = ' '
  · rw [if_pos hsp] at hc
    exact absurd hc (by decide)
  · rw [if_neg hsp] at hc
    exact hsp hc

theorem isMainDesktopFile_iff (fileName : List Char) :
    isMainDesktopFile fileName = true ↔ (".desktop".toList <:+: fileName ∧ '/' ∉ fileName) := by
  rw [← isMain_iff]
  simp [isMainDesktopFile]

theorem resourcesLoop_prepend_not_main (parse : List Char → Except Exception DesktopFile)
    (pre : List (List Char × Except Exception (List Char))) (tail : FilesRun)
    (resources : desktop_integration_resources)
    (hpre : ∀ p ∈ pre, ¬ (".desktop".toList <:+: p.1 ∧ '/' ∉ p.1)) :
    resourcesLoop parse (FilesRun.prepend pre tail) resources =
      resourcesLoop parse tail resources := by
  induction pre with
  | nil => rfl
  | cons p pre ih =>
    rw [FilesRun.prepend_cons]
    have hp : ¬ isMainDesktopFile p.1 = true :=
      fun h => hpre p (List.mem_cons_self _ _) ((isMainDesktopFile_iff p.1).1 h)
    simp only [resourcesLoop, hp, if_false, Bool.false_eq_true]
    exact ih (fun q hq => hpre q (List.mem_cons_of_mem _ hq))

theorem resourcesLoop_prepend_loaded (parse : List Char → Except Exception DesktopFile)
    (pre : List (List Char × Except Exception (List Char))) (tail : FilesRun)
    (hpre : ∀ p ∈ pre, (".desktop".toList <:+: p.1 ∧ '/' ∉ p.1) →
      ∃ bytes file, p.2 = Except.ok bytes ∧ parse bytes = Except.ok file) :
    ∀ resources, ∃ loaded,
      resourcesLoop parse (FilesRun.prepend pre tail) resources =
        resourcesLoop parse tail loaded := by
  induction pre with
  | nil => intro resources; exact ⟨resources, rfl⟩
  | cons p pre ih =>
    intro resources
    have ih2 := ih (fun q hq => hpre q (List.mem_cons_of_mem _ hq))
    rw [FilesRun.prepend_cons]
    by_cases hp : isMainDesktopFile p.1 = true
    · obtain ⟨bytes, file, hcontent, hparse⟩ :=
        hpre p (List.mem_cons_self _ _) ((isMainDesktopFile_iff p.1).1 hp)
      obtain ⟨loaded, hloaded⟩ := ih2 { resources with desktopFile := some file }
      refine ⟨loaded, ?_⟩
      simp only [resourcesLoop, hp, if_true, hcontent, hparse]
      exact hloaded
    · obtain ⟨loaded, hloaded⟩ := ih2 resources
      refine ⟨loaded, ?_⟩
      simp only [resourcesLoop, hp, if_false, Bool.false_eq_true]
      exact hloaded

theorem buildDesktopFilePath_of_name (hash : HashLib) (d : Integrator) (file : DesktopFile)
    (v : List Char)
    (hv : DesktopFile.getEntry file "Desktop Entry".toList "Name".toList = some v) :
    buildDesktopFilePath hash d ⟨some file⟩ =
      Result.returned (d.userDataDir ++ "/applications/appimagekit_".toList ++
        hash.toHex (hash.md5 d.appImagePath) ++ "-".toList ++
        (trim v).map (fun c => if c = ' ' then '_' else c) ++ ".desktop".toList) := by
  simp only [buildDesktopFilePath, hv, replace_all_space_underscore]
  simp [List.append_assoc]

theorem buildDesktopFilePath_of_no_name (hash : HashLib) (d : Integrator) (file : DesktopFile)
    (hv : DesktopFile.getEntry file "Desktop Entry".toList "Name".toList = none) :
    buildDesktopFilePath hash d ⟨some file⟩ =
      Result.raised ⟨ErrorKind.AppImageReadError,
        "Error while reading AppImage desktop file. Missing Name entry.".toList⟩ := by
  simp only [buildDesktopFilePath, hv]

/-- C7, as stated, fails. With "a.desktop" a main desktop file whose Name is "First":
when advancing the iterator throws after it, `getDesktopFilePath()` throws that exception
instead of returning the path built from "First"; and when a second main desktop file
"b.desktop" with the Name "Second" follows, the path returned is built from "Second". The
desktop file parser used here takes the whole content as the Name value. -/
theorem getDesktopFilePath_not_for_every_main_desktop_file :
    getDesktopFilePath ⟨fun _ => [], fun _ => "d41d8c".toList⟩
        (fun bytes => Except.ok [(("Desktop Entry".toList, "Name".toList), bytes)])
        { userDataDir := "/data".toList
          appImagePath := "/opt/x.AppImage".toList
          files := FilesRun.entry "a.desktop".toList (Except.ok "First".toList)
            (FilesRun.raised ⟨ErrorKind.AppImageReadError, "truncated".toList⟩) } =
      Result.raised ⟨ErrorKind.AppImageReadError, "truncated".toList⟩ ∧
    getDesktopFilePath ⟨fun _ => [], fun _ => "d41d8c".toList⟩
        (fun bytes => Except.ok [(("Desktop Entry".toList, "Name".toList), bytes)])
        { userDataDir := "/data".toList
          appImagePath := "/opt/x.AppImage".toList
          files := FilesRun.entry "a.desktop".toList (Except.ok "First".toList)
            (FilesRun.entry "b.desktop".toList (Except.ok "Second".toList)
              FilesRun.completed) } =
      Result.returned "/data/applications/appimagekit_d41d8c-Second.desktop".toList ∧
    getDesktopFilePath ⟨fun _ => [], fun _ => "d41d8c".toList⟩
        (fun bytes => Except.ok [(("Desktop Entry".toList, "Name".toList), bytes)])
        { userDataDir := "/data".toList
          appImagePath := "/opt/x.AppImage".toList
          files := FilesRun.entry "a.desktop".toList (Except.ok "First".toList)
            (FilesRun.entry "b.desktop".toList (Except.ok "Second".toList)
              FilesRun.completed) } ≠
      Result.returned "/data/applications/appimagekit_d41d8c-First.desktop".toList := by
  refine ⟨by decide, by decide, by decide⟩

/-- C7, amended: `getDesktopFilePath()` reads and parses every entry of the package whose name
contains ".desktop" and no '/', and the main desktop file it uses is the last of them in
iteration order. When the iteration completes and all of them are read and parsed without an
exception, and the last one has the value `v` under "Desktop Entry"/"Name", the result is the
user data directory followed by "/applications/appimagekit_", the hex md5 of the AppImage
path, "-", the escaped name and ".desktop"; the escaped name is `v` trimmed (what is cut off at
either end is whitespace, what is left neither starts nor ends with whitespace) with every
space replaced by an underscore, so it contains no space. When that last desktop file has no
Name entry, `AppImageReadError` is thrown. When opening the package or advancing the iterator
throws, or reading or parsing one of those entries throws, that exception is thrown instead of
a path being returned. -/
theorem getDesktopFilePath_of_last_main_desktop_file (hash : HashLib)
    (parse : List Char → Except Exception DesktopFile) (d : Integrator) :
    (∀ pre name bytes post file,
      d.files = FilesRun.prepend pre
        (FilesRun.entry name (Except.ok bytes) (FilesRun.prepend post FilesRun.completed)) →
      (∀ p ∈ pre, (".desktop".toList <:+: p.1 ∧ '/' ∉ p.1) →
        ∃ bytes' file', p.2 = Except.ok bytes' ∧ parse bytes' = Except.ok file') →
      (".desktop".toList <:+: name ∧ '/' ∉ name) →
      parse bytes = Except.ok file →
      (∀ p ∈ post, ¬ (".desktop".toList <:+: p.1 ∧ '/' ∉ p.1)) →
      (∀ v, DesktopFile.getEntry file "Desktop Entry".toList "Name".toList = some v →
        getDesktopFilePath hash parse d =
          Result.returned (d.userDataDir ++ "/applications/appimagekit_".toList ++
            hash.toHex (hash.md5 d.appImagePath) ++ "-".toList ++
            (trim v).map (fun c => if c = ' ' then '_' else c) ++ ".desktop".toList) ∧
        ' ' ∉ (trim v).map (fun c => if c = ' ' then '_' else c) ∧
        ∃ l r, v = l ++ trim v ++ r ∧
          (∀ c ∈ l, isspace c = true) ∧ (∀ c ∈ r, isspace c = true) ∧
          (∀ c, (trim v).head? = some c → isspace c = false) ∧
          (∀ c, (trim v).getLast? = some c → isspace c = false)) ∧
      (DesktopFile.getEntry file "Desktop Entry".toList "Name".toList = none →
        getDesktopFilePath hash parse d =
          Result.raised ⟨ErrorKind.AppImageReadError,
            "Error while reading AppImage desktop file. Missing Name entry.".toList⟩)) ∧
    (∀ pre e, d.files = FilesRun.prepend pre (FilesRun.raised e) →
      (∀ p ∈ pre, (".desktop".toList <:+: p.1 ∧ '/' ∉ p.1) →
        ∃ bytes' file', p.2 = Except.ok bytes' ∧ parse bytes' = Except.ok file') →
      getDesktopFilePath hash parse d = Result.raised e) ∧
    (∀ pre name content rest e,
      d.files = FilesRun.prepend pre (FilesRun.entry name content rest) →
      (∀ p ∈ pre, (".desktop".toList <:+: p.1 ∧ '/' ∉ p.1) →
        ∃ bytes' file', p.2 = Except.ok bytes' ∧ parse bytes' = Except.ok file') →
      (".desktop".toList <:+: name ∧ '/' ∉ name) →
      (content = Except.error e ∨
        ∃ bytes, content = Except.ok bytes ∧ parse bytes = Except.error e) →
      getDesktopFilePath hash parse d = Result.raised e) := by
  refine ⟨?_, ?_, ?_⟩
  · intro pre name bytes post file hfiles hpre hname hparse hpost
    have hmain : isMainDesktopFile name = true := (isMainDesktopFile_iff name).2 hname
    have hres : getDesktopIntegrationResources parse d = Result.returned ⟨some file⟩ := by
      obtain ⟨loaded, hloaded⟩ := resourcesLoop_prepend_loaded parse pre
        (FilesRun.entry name (Except.ok bytes) (FilesRun.prepend post FilesRun.completed))
        hpre { desktopFile := none }
      rw [getDesktopIntegrationResources, hfiles, hloaded]
      simp only [resourcesLoop, hmain, if_true, hparse]
      rw [resourcesLoop_prepend_not_main parse post _ _ hpost]
      rfl
    constructor
    · intro v hv
      refine ⟨?_, space_not_mem_map_underscore _, trim_spec v⟩
      simp only [getDesktopFilePath, hres]
      exact buildDesktopFilePath_of_name hash d file v hv
    · intro hnone
      simp only [getDesktopFilePath, hres]
      exact buildDesktopFilePath_of_no_name hash d file hnone
  · intro pre e hfiles hpre
    obtain ⟨loaded, hloaded⟩ := resourcesLoop_prepend_loaded parse pre (FilesRun.raised e)
      hpre { desktopFile := none }
    have hres : getDesktopIntegrationResources parse d = Result.raised e := by
      rw [getDesktopIntegrationResources, hfiles, hloaded]
      rfl
    simp only [getDesktopFilePath, hres]
  · intro pre name content rest e hfiles hpre hname hfail
    have hmain : isMainDesktopFile name = true := (isMainDesktopFile_iff name).2 hname
    obtain ⟨loaded, hloaded⟩ := resourcesLoop_prepend_loaded parse pre
      (FilesRun.entry name content rest) hpre { desktopFile := none }
    have hres : getDesktopIntegrationResources parse d = Result.raised e := by
      rw [getDesktopIntegrationResources, hfiles, hloaded]
      rcases hfail with hc | ⟨bytes, hc, hp⟩
      · subst hc
        simp only [resourcesLoop, hmain, if_true]
      · subst hc
        simp only [resourcesLoop, hmain, if_true, hp]
    simp only [getDesktopFilePath, hres]

/-- C7, amended, at a package with the desktop files "a.desktop" (content " First ") and
"b.desktop" (content "  My App "), a file in between and one after; the parser takes the whole
content as the Name value. -/
theorem getDesktopFilePath_of_last_main_desktop_file_witness :
    getDesktopFilePath ⟨fun _ => [], fun _ => "d41d8c".toList⟩
      (fun bytes => Except.ok [(("Desktop Entry".toList, "Name".toList), bytes)])
      { userDataDir := "/data".toList
        appImagePath := "/opt/x.AppImage".toList
        files := FilesRun.prepend
          [("a.desktop".toList, Except.ok " First ".toList), ("AppRun".toList, Except.ok [])]
          (FilesRun.entry "b.desktop".toList (Except.ok "  My App ".toList)
            (FilesRun.prepend [("usr/share/c.desktop".toList, Except.ok [])]
              FilesRun.completed)) } =
      Result.returned "/data/applications/appimagekit_d41d8c-My_App.desktop".toList :=
  (((getDesktopFilePath_of_last_main_desktop_file ⟨fun _ => [], fun _ => "d41d8c".toList⟩
      (fun bytes => Except.ok [(("Desktop Entry".toList, "Name".toList), bytes)])
      { userDataDir := "/data".toList
        appImagePath := "/opt/x.AppImage".toList
        files := FilesRun.prepend
          [("a.desktop".toList, Except.ok " First ".toList), ("AppRun".toList, Except.ok [])]
          (FilesRun.entry "b.desktop".toList (Except.ok "  My App ".toList)
            (FilesRun.prepend [("usr/share/c.desktop".toList, Except.ok [])]
              FilesRun.completed)) }).1
    [("a.desktop".toList, Except.ok " First ".toList), ("AppRun".toList, Except.ok [])]
    "b.desktop".toList "  My App ".toList [("usr/share/c.desktop".toList, Except.ok [])]
    [(("Desktop Entry".toList, "Name".toList), "  My App ".toList)] rfl
    (by
      intro p hp _
      simp only [List.mem_cons, List.mem_singleton, List.not_mem_nil, or_false] at hp
      rcases hp with rfl | rfl
      · exact ⟨_, _, rfl, rfl⟩
      · exact ⟨_, _, rfl, rfl⟩)
    (by decide) rfl (by decide)).1 "  My App ".toList (by decide)).1.trans (by decide)

end DesktopIntegration

end libappimage
